import Mathlib

/-!
Verification of the CSV plan-import routine of the workout repository
(`src/workouts/importers.py`, data model in `src/workouts/models.py`).

The importer is embedded shallowly:

* a CSV file is represented after record parsing, as a header row plus a
  list of data rows (`CsvFile`); `csv.DictReader`'s per-row dictionary
  access is modelled by `getCol`;
* the persistent store (Django ORM) is a `DB` value holding the exercise
  catalog and the plan-item table; every ORM call the importer makes
  (`get_or_create`, `save(update_fields=["youtube_url"])`,
  `filter(plan=plan).delete()`, `objects.create`) is one `DB` operation;
* `@transaction.atomic` is modelled by `import_plan_items_from_csv`
  discarding the partially mutated state produced by `importBody`
  whenever the body signals an error;
* Python `int(str)` is modelled by `pyInt` (ASCII digits, an optional
  sign, underscores allowed between digits, surrounding whitespace
  stripped); a failing conversion raises `ValueError` whose payload is
  the offending literal, modelled by `ImportError.invalidIntLiteral`.
-/

namespace Workout

/-- The whitespace characters stripped by Python's `str.strip()` (ASCII part). -/
def pyWhitespace (c : Char) : Bool :=
  c = ' ' || c = '\t' || c = '\n' || c = '\r' || c = '\x0b' || c = '\x0c'

/-- Strip `pyWhitespace` from both ends of a character list. -/
def trimChars (cs : List Char) : List Char :=
  ((cs.dropWhile pyWhitespace).reverse.dropWhile pyWhitespace).reverse

/-- Python `str.strip()` on strings. -/
def pyStrip (s : String) : String :=
  ⟨trimChars s.data⟩

def isAsciiDigit (c : Char) : Bool :=
  '0' ≤ c && c ≤ '9'

def digitVal (c : Char) : Nat :=
  c.toNat - '0'.toNat

/-- Digits of an integer literal after the first one: Python allows single
underscores between digits (`int("1_0") = 10`, `int("1__0")` and
`int("1_")` raise). -/
def digitsUAux (acc : Nat) : List Char → Option Nat
  | [] => some acc
  | c :: rest =>
    if isAsciiDigit c then digitsUAux (acc * 10 + digitVal c) rest
    else if c = '_' then
      match rest with
      | [] => none
      | d :: rest2 =>
        if isAsciiDigit d then digitsUAux (acc * 10 + digitVal d) rest2 else none
    else none

/-- A nonempty digit group (with Python's underscore rule). -/
def digitsU : List Char → Option Nat
  | [] => none
  | c :: rest => if isAsciiDigit c then digitsUAux (digitVal c) rest else none

/-- Python `int(str)` on a character list: strip whitespace, optional sign,
then a digit group. -/
def pyIntOfChars (cs : List Char) : Option Int :=
  match trimChars cs with
  | [] => none
  | c :: rest =>
    if c = '+' then
      match digitsU rest with
      | some k => some (Int.ofNat k)
      | none => none
    else if c = '-' then
      match digitsU rest with
      | some k => some (-(Int.ofNat k))
      | none => none
    else
      match digitsU (c :: rest) with
      | some k => some (Int.ofNat k)
      | none => none

/-- Python `int(str)`. `none` models `ValueError`. -/
def pyInt (s : String) : Option Int :=
  pyIntOfChars s.data

/-- The errors `import_plan_items_from_csv` can raise: the explicit
`ValueError("Missing required CSV columns: ...")` (payload: the sorted
missing-column list joined into the message) and the `ValueError` raised
by a failing `int(...)` conversion (payload: the offending literal). -/
inductive ImportError where
  | missingColumns : List String → ImportError
  | invalidIntLiteral : String → ImportError
deriving DecidableEq

/-- `int(s)` as the importer uses it: the raised `ValueError` carries the
offending literal. -/
def pyIntE (s : String) : Except ImportError Int :=
  match pyInt s with
  | some n => .ok n
  | none => .error (.invalidIntLiteral s)

/-- Python `s.split("-")`. -/
def splitHyphen : List Char → List (List Char)
  | [] => [[]]
  | c :: rest =>
    match splitHyphen rest with
    | [] => [[]]
    | g :: gs => if c = '-' then [] :: g :: gs else (c :: g) :: gs

/-- `[p.strip() for p in s.split("-") if p.strip()]`. -/
def segsOf (s : String) : List String :=
  ((splitHyphen s.data).map (fun g => (⟨trimChars g⟩ : String))).filter
    (fun t => t ≠ "")

/-- `nums = [int(p) for p in parts]` — left to right, the first failing
conversion raises. -/
def mapIntList : List String → Except ImportError (List Int)
  | [] => .ok []
  | s :: ss =>
    match pyIntE s with
    | .error e => .error e
    | .ok n =>
      match mapIntList ss with
      | .error e => .error e
      | .ok ns => .ok (n :: ns)

/-- `_parse_sets` from `importers.py`:
strip; empty → 1; if the value contains a hyphen, split on hyphens,
strip the pieces, drop the empty ones, convert each to `int` and return
their maximum (or 1 when no pieces remain); otherwise convert the whole
value to `int`. -/
def parse_sets (value : String) : Except ImportError Int :=
  let s := pyStrip value
  if s = "" then .ok 1
  else if s.data.contains '-' then
    match mapIntList (segsOf s) with
    | .error e => .error e
    | .ok [] => .ok 1
    | .ok (n :: ns) => .ok (ns.foldl max n)
  else pyIntE s

/-- `int(rest_seconds_raw) if rest_seconds_raw else 0`. -/
def parseRest (raw : String) : Except ImportError Int :=
  if raw = "" then .ok 0 else pyIntE raw

/-- `Exercise` model: `name` is the unique identity, `youtube_url` and
`notes` the remaining fields the importer can see. -/
structure Exercise where
  name : String
  youtube_url : String
  notes : String
deriving DecidableEq

/-- A `WorkoutPlanItem` row. Plans are external records referenced by id;
the exercise foreign key is represented by the exercise's unique name. -/
structure PlanItemRec where
  plan : Nat
  exercise : String
  order : Nat
  prescribed_sets : Int
  prescribed_reps : String
  rest_seconds : Int
deriving DecidableEq

/-- The store the importer mutates: the exercise catalog and the
plan-item table. -/
structure DB where
  catalog : List Exercise
  items : List PlanItemRec
deriving DecidableEq

/-- `Exercise.objects.filter(name=n).first()` — lookup by unique name. -/
def findExercise (c : List Exercise) (n : String) : Option Exercise :=
  c.find? (fun e => e.name = n)

/-- `Exercise.objects.get_or_create(name=name, defaults={"youtube_url": url})`:
returns the (possibly new) record and the `created` flag. -/
def get_or_create (db : DB) (n url : String) : DB × Exercise × Bool :=
  match findExercise db.catalog n with
  | some e => (db, e, false)
  | none =>
    let e : Exercise := ⟨n, url, ""⟩
    ({ db with catalog := db.catalog ++ [e] }, e, true)

/-- `exercise.youtube_url = url; exercise.save(update_fields=["youtube_url"])`. -/
def updateUrl (db : DB) (n url : String) : DB :=
  { db with
    catalog := db.catalog.map (fun e =>
      if e.name = n then { e with youtube_url := url } else e) }

/-- `WorkoutPlanItem.objects.filter(plan=plan).delete()`. -/
def deleteItems (plan : Nat) (db : DB) : DB :=
  { db with items := db.items.filter (fun it => it.plan ≠ plan) }

/-- The item rows of one plan, in insertion order. -/
def itemsOf (plan : Nat) (db : DB) : List PlanItemRec :=
  db.items.filter (fun it => it.plan = plan)

/-- A CSV file after record parsing: the header row and the data rows. -/
structure CsvFile where
  header : List String
  rows : List (List String)
deriving DecidableEq

/-- `csv.DictReader` row access: `dict(zip(fieldnames, row))` (a later
duplicate header wins), `row.get(col) or ""` when the column is absent
or the row is short. -/
def getCol (header row : List String) (col : String) : String :=
  match ((header.zip row).filter (fun p => p.1 = col)).getLast? with
  | some p => p.2
  | none => ""

def rowName (h r : List String) : String := pyStrip (getCol h r "Exercise")

def rowUrl (h r : List String) : String := pyStrip (getCol h r "YouTube_URL")

def rowReps (h r : List String) : String := pyStrip (getCol h r "Reps_or_Time")

def rowRest (h r : List String) : String := pyStrip (getCol h r "Rest_Seconds")

def rowSets (h r : List String) : String := pyStrip (getCol h r "Sets")

/-- The loop state of the row-processing loop: the store, the three
summary counters and the running `order` value (starts at 1). -/
structure LoopState where
  db : DB
  created_exercises : Nat
  updated_exercises : Nat
  created_items : Nat
  order : Nat
deriving DecidableEq

/-- One iteration of the `for row in reader` loop: skip a blank
`Exercise`, parse `Sets` and `Rest_Seconds` (either failure raises before
any store access), upsert the exercise, create the plan item.
`objects.create` is modelled as an append: the `PositiveSmallIntegerField`
≥ 0 checks declared in `models.py` live in the database backend, not in
this Python code path, and are not modelled here — no theorem below
asserts that a value those checks would reject is storable. -/
def processRow (plan : Nat) (h : List String) (st : LoopState)
    (r : List String) : Except ImportError LoopState :=
  let name := rowName h r
  if name = "" then .ok st
  else
    match parse_sets (rowSets h r) with
    | .error e => .error e
    | .ok prescribed_sets =>
      match parseRest (rowRest h r) with
      | .error e => .error e
      | .ok rest_seconds =>
        let url := rowUrl h r
        let goc := get_or_create st.db name url
        let upd :=
          if goc.2.2 then (goc.1, 1, 0)
          else if url ≠ "" ∧ goc.2.1.youtube_url ≠ url then
            (updateUrl goc.1 name url, 0, 1)
          else (goc.1, 0, 0)
        let it : PlanItemRec :=
          { plan := plan
            exercise := name
            order := st.order
            prescribed_sets := prescribed_sets
            prescribed_reps := if rowReps h r = "" then "10" else rowReps h r
            rest_seconds := rest_seconds }
        .ok { db := { upd.1 with items := upd.1.items ++ [it] }
              created_exercises := st.created_exercises + upd.2.1
              updated_exercises := st.updated_exercises + upd.2.2
              created_items := st.created_items + 1
              order := st.order + 1 }

/-- The row loop. On an error the state returned is the one reached so
far (the uncommitted partial mutation that `transaction.atomic` will
discard). -/
def runRows (plan : Nat) (h : List String) (st : LoopState) :
    List (List String) → LoopState × Option ImportError
  | [] => (st, none)
  | r :: rs =>
    match processRow plan h st r with
    | .error e => (st, some e)
    | .ok st' => runRows plan h st' rs

/-- The required header columns, listed in alphabetical order so that
filtering reproduces Python's `sorted(required - set(fieldnames))`. -/
def requiredColumns : List String :=
  ["Exercise", "Reps_or_Time", "Rest_Seconds", "Sets", "YouTube_URL"]

/-- `sorted(required - set(reader.fieldnames or []))`. -/
def missingColumnsOf (header : List String) : List String :=
  requiredColumns.filter (fun c => !(header.contains c))

/-- The returned `ImportResult` dataclass. -/
structure ImportResult where
  created_exercises : Nat
  updated_exercises : Nat
  created_items : Nat
deriving DecidableEq

/-- The body of `import_plan_items_from_csv`, without the transaction
wrapper: header validation, then the destructive delete of the plan's
items, then the row loop (`csv.DictReader` skips rows that are empty
lists, hence the `≠ []` filter). On an error the returned `DB` is the
partially mutated, not-yet-rolled-back state. -/
def importBody (db : DB) (plan : Nat) (file : CsvFile) :
    DB × Except ImportError ImportResult :=
  let missing := missingColumnsOf file.header
  if missing ≠ [] then (db, .error (.missingColumns missing))
  else
    let db1 := deleteItems plan db
    let rows := file.rows.filter (fun r => r ≠ [])
    match runRows plan file.header ⟨db1, 0, 0, 0, 1⟩ rows with
    | (st, none) =>
      (st.db, .ok ⟨st.created_exercises, st.updated_exercises, st.created_items⟩)
    | (st, some e) => (st.db, .error e)

/-- `import_plan_items_from_csv` with its `@transaction.atomic`
decorator: on an error every mutation of the body is rolled back and the
store is returned exactly as it was. -/
def import_plan_items_from_csv (db : DB) (plan : Nat) (file : CsvFile) :
    DB × Except ImportError ImportResult :=
  match importBody db plan file with
  | (_, .error e) => (db, .error e)
  | (db', .ok r) => (db', .ok r)

/-! ### Derived descriptions of the importer's behaviour

The following definitions restate, row by row, what the loop does; the
lemmas below prove that `runRows` realises them. -/

/-- The error a row produces, if any: blank rows produce none, otherwise
the `Sets` parse error, else the `Rest_Seconds` parse error. Whether a
row fails is a function of the row alone, not of the loop state. -/
def rowErr (h r : List String) : Option ImportError :=
  if rowName h r = "" then none
  else
    match parse_sets (rowSets h r) with
    | .error e => some e
    | .ok _ =>
      match parseRest (rowRest h r) with
      | .error e => some e
      | .ok _ => none

/-- Value of a successful parse (junk default for the failure case,
which the success-path lemmas never reach). -/
def okD (e : Except ImportError Int) : Int :=
  match e with
  | .ok n => n
  | .error _ => 0

/-- The plan item an accepted row materialises at a given order. -/
def itemOfRow (plan : Nat) (h : List String) (ord : Nat)
    (r : List String) : PlanItemRec :=
  { plan := plan
    exercise := rowName h r
    order := ord
    prescribed_sets := okD (parse_sets (rowSets h r))
    prescribed_reps := if rowReps h r = "" then "10" else rowReps h r
    rest_seconds := okD (parseRest (rowRest h r)) }

/-- The rows not skipped as blank. -/
def acceptedRows (h : List String) (rows : List (List String)) :
    List (List String) :=
  rows.filter (fun r => rowName h r ≠ "")

/-- The items a successful run creates, in file order, with consecutive
orders from `ord`. -/
def createdItems (plan : Nat) (h : List String) (ord : Nat) :
    List (List String) → List PlanItemRec
  | [] => []
  | r :: rs =>
    if rowName h r = "" then createdItems plan h ord rs
    else itemOfRow plan h ord r :: createdItems plan h (ord + 1) rs

/-! ### Lemmas about one loop iteration -/

theorem processRow_blank (plan : Nat) (h : List String) (st : LoopState)
    (r : List String) (hname : rowName h r = "") :
    processRow plan h st r = .ok st := by
  simp [processRow, hname]

theorem processRow_error_iff (plan : Nat) (h : List String) (st : LoopState)
    (r : List String) (e : ImportError) :
    processRow plan h st r = .error e ↔ rowErr h r = some e := by
  unfold processRow rowErr
  by_cases hname : rowName h r = ""
  · simp [hname]
  · cases hs : parse_sets (rowSets h r) with
    | error e1 => simp [hname, hs]
    | ok a =>
      cases hb : parseRest (rowRest h r) with
      | error e1 => simp [hname, hs, hb]
      | ok b => simp [hname, hs, hb]

theorem rowErr_none_of_ok {plan : Nat} {h : List String} {st st' : LoopState}
    {r : List String} (hok : processRow plan h st r = .ok st') :
    rowErr h r = none := by
  cases herr : rowErr h r with
  | none => rfl
  | some e =>
    rw [← processRow_error_iff plan h st r e] at herr
    rw [hok] at herr
    cases herr

theorem processRow_ok_of_rowErr_none {plan : Nat} {h : List String}
    {st : LoopState} {r : List String} (hnone : rowErr h r = none) :
    ∃ st', processRow plan h st r = .ok st' := by
  cases hp : processRow plan h st r with
  | ok st' => exact ⟨st', rfl⟩
  | error e =>
    rw [processRow_error_iff] at hp
    rw [hp] at hnone
    cases hnone

/-- Full description of a successful iteration: a blank row is a no-op;
an accepted row appends exactly one item (at the current order, which is
then incremented) and touches the catalog per the upsert rule. -/
theorem processRow_ok_cases {plan : Nat} {h : List String} {st st' : LoopState}
    {r : List String} (hok : processRow plan h st r = .ok st') :
    (rowName h r = "" ∧ st' = st) ∨
    (rowName h r ≠ "" ∧
      st'.db.items = st.db.items ++ [itemOfRow plan h st.order r] ∧
      st'.order = st.order + 1 ∧
      st'.created_items = st.created_items + 1 ∧
      ((findExercise st.db.catalog (rowName h r) = none ∧
         st'.db.catalog = st.db.catalog ++ [⟨rowName h r, rowUrl h r, ""⟩] ∧
         st'.created_exercises = st.created_exercises + 1 ∧
         st'.updated_exercises = st.updated_exercises) ∨
       (∃ e0, findExercise st.db.catalog (rowName h r) = some e0 ∧
         st'.created_exercises = st.created_exercises ∧
         ((rowUrl h r ≠ "" ∧ e0.youtube_url ≠ rowUrl h r) →
            st'.db.catalog = st.db.catalog.map (fun e =>
              if e.name = rowName h r then { e with youtube_url := rowUrl h r }
              else e) ∧
            st'.updated_exercises = st.updated_exercises + 1) ∧
         (¬(rowUrl h r ≠ "" ∧ e0.youtube_url ≠ rowUrl h r) →
            st'.db.catalog = st.db.catalog ∧
            st'.updated_exercises = st.updated_exercises)))) := by
  by_cases hname : rowName h r = ""
  · left
    refine ⟨hname, ?_⟩
    rw [processRow_blank plan h st r hname] at hok
    exact (Except.ok.injEq _ _).mp hok |>.symm
  · right
    cases hs : parse_sets (rowSets h r) with
    | error e1 => simp [processRow, hname, hs] at hok
    | ok a =>
      cases hb : parseRest (rowRest h r) with
      | error e1 => simp [processRow, hname, hs, hb] at hok
      | ok b =>
        cases hfind : findExercise st.db.catalog (rowName h r) with
        | none =>
          simp [processRow, hname, hs, hb, get_or_create, hfind] at hok
          subst hok
          refine ⟨hname, ?_, rfl, rfl, Or.inl ⟨rfl, ?_, ?_, ?_⟩⟩ <;>
            simp [itemOfRow, okD, hs, hb]
        | some e0 =>
          by_cases hcond : rowUrl h r ≠ "" ∧ e0.youtube_url ≠ rowUrl h r
          · simp [processRow, hname, hs, hb, get_or_create, hfind,
              hcond.1, hcond.2] at hok
            subst hok
            refine ⟨hname, ?_, rfl, rfl,
              Or.inr ⟨e0, rfl, ?_, fun _ => ⟨?_, ?_⟩, fun hc => absurd hcond hc⟩⟩ <;>
              simp [itemOfRow, okD, hs, hb, updateUrl]
          · simp [processRow, hname, hs, hb, get_or_create, hfind,
              if_neg hcond] at hok
            subst hok
            refine ⟨hname, ?_, rfl, rfl,
              Or.inr ⟨e0, rfl, ?_, fun hc => absurd hc hcond, fun _ => ⟨?_, ?_⟩⟩⟩ <;>
              simp [itemOfRow, okD, hs, hb]

/-! ### Catalog lookup lemmas -/

theorem findExercise_append (c : List Exercise) (e : Exercise) (n : String)
    (hs : (findExercise c n).isSome) : (findExercise (c ++ [e]) n).isSome := by
  induction c with
  | nil => simp [findExercise] at hs
  | cons a c ih =>
    by_cases ha : a.name = n
    · simp [findExercise, List.find?_cons, ha]
    · simp only [findExercise, List.cons_append, List.find?_cons] at hs ⊢
      simp only [ha, decide_False] at hs ⊢
      exact ih hs

theorem findExercise_append_self (c : List Exercise) (e : Exercise)
    (n : String) (hn : e.name = n) :
    (findExercise (c ++ [e]) n).isSome := by
  induction c with
  | nil => simp [findExercise, List.find?_cons, hn]
  | cons a c ih =>
    by_cases ha : a.name = n
    · simp [findExercise, List.find?_cons, ha]
    · simp only [findExercise, List.cons_append, List.find?_cons] at ih ⊢
      simpa only [ha, decide_False] using ih

theorem findExercise_map_update (c : List Exercise) (m u n : String) :
    findExercise (c.map (fun e =>
        if e.name = m then { e with youtube_url := u } else e)) n
      = (findExercise c n).map (fun e =>
        if e.name = m then { e with youtube_url := u } else e) := by
  induction c with
  | nil => simp [findExercise]
  | cons a c ih =>
    have hfa : ((fun e =>
        if e.name = m then ({ e with youtube_url := u } : Exercise) else e)
          a).name = a.name := by
      by_cases ham : a.name = m <;> simp [ham]
    unfold findExercise at ih ⊢
    simp only [List.map_cons, List.find?_cons]
    rw [hfa]
    by_cases ha : a.name = n
    · simp [ha]
    · simp only [ha, decide_False]
      exact ih

/-- A successful iteration never makes a catalog name unfindable. -/
theorem processRow_find_mono {plan : Nat} {h : List String}
    {st st' : LoopState} {r : List String}
    (hok : processRow plan h st r = .ok st') (n : String)
    (hs : (findExercise st.db.catalog n).isSome) :
    (findExercise st'.db.catalog n).isSome := by
  rcases processRow_ok_cases hok with ⟨_, rfl⟩ | ⟨_, _, _, _, hcat⟩
  · exact hs
  · rcases hcat with ⟨_, hcatEq, _, _⟩ | ⟨e0, _, _, hupd, hnupd⟩
    · rw [hcatEq]; exact findExercise_append _ _ _ hs
    · by_cases hcond : rowUrl h r ≠ "" ∧ e0.youtube_url ≠ rowUrl h r
      · rw [(hupd hcond).1, findExercise_map_update]
        simpa using hs
      · rw [(hnupd hcond).1]; exact hs

theorem runRows_find_mono (plan : Nat) (h : List String)
    (rows : List (List String)) :
    ∀ (st : LoopState) (n : String), (findExercise st.db.catalog n).isSome →
      (findExercise (runRows plan h st rows).1.db.catalog n).isSome := by
  induction rows with
  | nil => intro st n hs; simpa [runRows] using hs
  | cons r rs ih =>
    intro st n hs
    unfold runRows
    cases hp : processRow plan h st r with
    | error e => simpa using hs
    | ok st1 => exact ih st1 n (processRow_find_mono hp n hs)

/-! ### The row loop -/

theorem runRows_none_iff (plan : Nat) (h : List String)
    (rows : List (List String)) :
    ∀ st : LoopState,
      (runRows plan h st rows).2 = none ↔ ∀ r ∈ rows, rowErr h r = none := by
  induction rows with
  | nil => intro st; simp [runRows]
  | cons r rs ih =>
    intro st
    unfold runRows
    cases hp : processRow plan h st r with
    | error e =>
      have : rowErr h r = some e := (processRow_error_iff plan h st r e).mp hp
      simp [this]
    | ok st1 =>
      have : rowErr h r = none := rowErr_none_of_ok hp
      simp [ih st1, this]

theorem runRows_ok_items (plan : Nat) (h : List String)
    (rows : List (List String)) :
    ∀ st st' : LoopState, runRows plan h st rows = (st', none) →
      st'.db.items = st.db.items ++ createdItems plan h st.order rows ∧
      st'.order = st.order + (acceptedRows h rows).length ∧
      st'.created_items = st.created_items + (acceptedRows h rows).length := by
  induction rows with
  | nil =>
    intro st st' hrun
    simp only [runRows] at hrun
    have hst : st = st' := congrArg Prod.fst hrun
    subst hst
    simp [createdItems, acceptedRows]
  | cons r rs ih =>
    intro st st' hrun
    unfold runRows at hrun
    cases hp : processRow plan h st r with
    | error e => rw [hp] at hrun; simp at hrun
    | ok st1 =>
      rw [hp] at hrun
      obtain ⟨hi, ho, hc⟩ := ih st1 st' hrun
      rcases processRow_ok_cases hp with ⟨hblank, rfl⟩ | ⟨hname, hits, hord, hcnt, -⟩
      · refine ⟨?_, ?_, ?_⟩ <;>
          simp [createdItems, acceptedRows, hblank, hi, ho, hc]
      · refine ⟨?_, ?_, ?_⟩
        · rw [hi, hits, hord]
          simp [createdItems, acceptedRows, hname, List.append_assoc]
        · rw [ho, hord]
          simp [acceptedRows, hname]
          omega
        · rw [hc, hcnt]
          simp [acceptedRows, hname]
          omega

theorem runRows_names_present (plan : Nat) (h : List String)
    (rows : List (List String)) :
    ∀ st st' : LoopState, runRows plan h st rows = (st', none) →
      ∀ r ∈ rows, rowName h r ≠ "" →
        (findExercise st'.db.catalog (rowName h r)).isSome := by
  induction rows with
  | nil => intro st st' _ r hr; cases hr
  | cons r rs ih =>
    intro st st' hrun r' hmem hname'
    unfold runRows at hrun
    cases hp : processRow plan h st r with
    | error e => rw [hp] at hrun; simp at hrun
    | ok st1 =>
      rw [hp] at hrun
      have hrun2 : runRows plan h st1 rs = (st', none) := hrun
      rcases List.mem_cons.mp hmem with rfl | hmem'
      · have h1 : (findExercise st1.db.catalog (rowName h r')).isSome := by
          rcases processRow_ok_cases hp with ⟨hblank, -⟩ | ⟨-, -, -, -, hcat⟩
          · exact absurd hblank hname'
          · rcases hcat with ⟨-, hcatEq, -, -⟩ | ⟨e0, hfind, -, hupd, hnupd⟩
            · rw [hcatEq]
              exact findExercise_append_self _ _ _ rfl
            · by_cases hcond : rowUrl h r' ≠ "" ∧ e0.youtube_url ≠ rowUrl h r'
              · rw [(hupd hcond).1, findExercise_map_update, hfind]
                simp
              · rw [(hnupd hcond).1, hfind]; simp
        have := runRows_find_mono plan h rs st1 (rowName h r') h1
        rwa [hrun2] at this
      · exact ih st1 st' hrun2 r' hmem' hname'

theorem runRows_created_const (plan : Nat) (h : List String)
    (rows : List (List String)) :
    ∀ st st' : LoopState,
      (∀ r ∈ rows, rowName h r ≠ "" →
        (findExercise st.db.catalog (rowName h r)).isSome) →
      runRows plan h st rows = (st', none) →
      st'.created_exercises = st.created_exercises := by
  induction rows with
  | nil =>
    intro st st' _ hrun
    simp only [runRows] at hrun
    have hst : st = st' := congrArg Prod.fst hrun
    subst hst
    rfl
  | cons r rs ih =>
    intro st st' hpres hrun
    unfold runRows at hrun
    cases hp : processRow plan h st r with
    | error e => rw [hp] at hrun; simp at hrun
    | ok st1 =>
      rw [hp] at hrun
      have hrun2 : runRows plan h st1 rs = (st', none) := hrun
      have hpres1 : ∀ r' ∈ rs, rowName h r' ≠ "" →
          (findExercise st1.db.catalog (rowName h r')).isSome := fun r' hm hn =>
        processRow_find_mono hp _ (hpres r' (List.mem_cons_of_mem r hm) hn)
      rcases processRow_ok_cases hp with ⟨-, hst1⟩ | ⟨hname, -, -, -, hcat⟩
      · subst hst1
        exact ih _ st' hpres1 hrun2
      · rcases hcat with ⟨hfind, -, -, -⟩ | ⟨e0, -, hcre, -, -⟩
        · have := hpres r (List.mem_cons_self r rs) hname
          rw [hfind] at this
          cases this
        · rw [ih st1 st' hpres1 hrun2, hcre]

theorem runRows_updated_const (plan : Nat) (h : List String)
    (rows : List (List String)) :
    ∀ st st' : LoopState,
      (∀ r ∈ rows, rowName h r ≠ "" →
        ∃ e0, findExercise st.db.catalog (rowName h r) = some e0 ∧
          (rowUrl h r = "" ∨ e0.youtube_url = rowUrl h r)) →
      runRows plan h st rows = (st', none) →
      st'.updated_exercises = st.updated_exercises ∧
      st'.db.catalog = st.db.catalog := by
  induction rows with
  | nil =>
    intro st st' _ hrun
    simp only [runRows] at hrun
    have hst : st = st' := congrArg Prod.fst hrun
    subst hst
    exact ⟨rfl, rfl⟩
  | cons r rs ih =>
    intro st st' hyp hrun
    unfold runRows at hrun
    cases hp : processRow plan h st r with
    | error e => rw [hp] at hrun; simp at hrun
    | ok st1 =>
      rw [hp] at hrun
      have hrun2 : runRows plan h st1 rs = (st', none) := hrun
      rcases processRow_ok_cases hp with ⟨-, hst1⟩ | ⟨hname, -, -, -, hcat⟩
      · subst hst1
        exact ih _ st'
          (fun r' hm hn => hyp r' (List.mem_cons_of_mem r hm) hn) hrun2
      · obtain ⟨e0, hfind, hnochange⟩ := hyp r (List.mem_cons_self r rs) hname
        rcases hcat with ⟨hnone, -, -, -⟩ | ⟨e0', hfind', -, -, hnupd⟩
        · rw [hnone] at hfind; cases hfind
        · have he : e0' = e0 := by
            rw [hfind] at hfind'
            exact (Option.some.inj hfind').symm
          subst he
          have hcond : ¬(rowUrl h r ≠ "" ∧ e0'.youtube_url ≠ rowUrl h r) := by
            rcases hnochange with hu | hu
            · intro hc; exact hc.1 hu
            · intro hc; exact hc.2 hu
          obtain ⟨hcatEq, hupdEq⟩ := hnupd hcond
          have hyp1 : ∀ r' ∈ rs, rowName h r' ≠ "" →
              ∃ e1, findExercise st1.db.catalog (rowName h r') = some e1 ∧
                (rowUrl h r' = "" ∨ e1.youtube_url = rowUrl h r') := by
            intro r' hm hn
            rw [hcatEq]
            exact hyp r' (List.mem_cons_of_mem r hm) hn
          obtain ⟨hu, hcEq⟩ := ih st1 st' hyp1 hrun2
          exact ⟨by rw [hu, hupdEq], by rw [hcEq, hcatEq]⟩

/-! ### The created item list -/

theorem createdItems_plan_mem (plan : Nat) (h : List String)
    (rows : List (List String)) :
    ∀ ord, ∀ it ∈ createdItems plan h ord rows, it.plan = plan := by
  induction rows with
  | nil => intro ord it hmem; cases hmem
  | cons r rs ih =>
    intro ord it hmem
    by_cases hname : rowName h r = ""
    · rw [createdItems, if_pos hname] at hmem
      exact ih ord it hmem
    · rw [createdItems, if_neg hname] at hmem
      rcases List.mem_cons.mp hmem with rfl | hmem'
      · rfl
      · exact ih (ord + 1) it hmem'

theorem createdItems_map_order (plan : Nat) (h : List String)
    (rows : List (List String)) :
    ∀ ord, (createdItems plan h ord rows).map (fun it => it.order)
      = List.range' ord (acceptedRows h rows).length := by
  induction rows with
  | nil => intro ord; simp [createdItems, acceptedRows]
  | cons r rs ih =>
    intro ord
    by_cases hname : rowName h r = ""
    · rw [createdItems, if_pos hname]
      simp only [acceptedRows, List.filter_cons]
      simp [hname, ih ord, acceptedRows]
    · rw [createdItems, if_neg hname]
      simp only [acceptedRows, List.filter_cons]
      simp only [hname, decide_not]
      simp [List.range'_succ, ih (ord + 1), acceptedRows, itemOfRow]

theorem createdItems_map_exercise (plan : Nat) (h : List String)
    (rows : List (List String)) :
    ∀ ord, (createdItems plan h ord rows).map (fun it => it.exercise)
      = (acceptedRows h rows).map (fun r => rowName h r) := by
  induction rows with
  | nil => intro ord; simp [createdItems, acceptedRows]
  | cons r rs ih =>
    intro ord
    by_cases hname : rowName h r = ""
    · rw [createdItems, if_pos hname]
      simp only [acceptedRows, List.filter_cons]
      simp [hname, ih ord, acceptedRows]
    · rw [createdItems, if_neg hname]
      simp only [acceptedRows, List.filter_cons]
      simp only [hname, decide_not]
      simp [ih (ord + 1), acceptedRows, itemOfRow]

/-! ### Facts about the integer parsers -/

theorem mem_trimChars {a : Char} {cs : List Char} (h : a ∈ trimChars cs) :
    a ∈ cs := by
  unfold trimChars at h
  rw [List.mem_reverse] at h
  have h2 := (List.dropWhile_sublist (p := pyWhitespace)
    (l := (cs.dropWhile pyWhitespace).reverse)).mem h
  rw [List.mem_reverse] at h2
  exact (List.dropWhile_sublist (p := pyWhitespace) (l := cs)).mem h2

theorem pyIntOfChars_nonneg {cs : List Char} (hm : '-' ∉ cs) {n : Int}
    (h : pyIntOfChars cs = some n) : 0 ≤ n := by
  unfold pyIntOfChars at h
  cases htc : trimChars cs with
  | nil => rw [htc] at h; cases h
  | cons c rest =>
    rw [htc] at h
    dsimp only at h
    have hminus : c ≠ '-' := by
      intro hc
      subst hc
      exact hm (mem_trimChars (htc ▸ List.mem_cons_self _ _))
    by_cases hplus : c = '+'
    · rw [if_pos hplus] at h
      cases hd : digitsU rest with
      | none => rw [hd] at h; cases h
      | some k =>
        rw [hd] at h
        cases h
        exact Int.natCast_nonneg k
    · rw [if_neg hplus, if_neg hminus] at h
      cases hd : digitsU (c :: rest) with
      | none => rw [hd] at h; cases h
      | some k =>
        rw [hd] at h
        cases h
        exact Int.natCast_nonneg k

theorem pyInt_nonneg {s : String} (hm : '-' ∉ s.data) {n : Int}
    (h : pyInt s = some n) : 0 ≤ n :=
  pyIntOfChars_nonneg hm h

theorem splitHyphen_ne_nil (cs : List Char) : splitHyphen cs ≠ [] := by
  induction cs with
  | nil => simp [splitHyphen]
  | cons c rest ih =>
    unfold splitHyphen
    cases hsp : splitHyphen rest with
    | nil => simp
    | cons g gs => by_cases hc : c = '-' <;> simp [hc]

theorem splitHyphen_no_hyphen (cs : List Char) :
    ∀ g ∈ splitHyphen cs, '-' ∉ g := by
  induction cs with
  | nil =>
    intro g hg
    simp only [splitHyphen, List.mem_singleton] at hg
    subst hg
    simp
  | cons c rest ih =>
    intro g hg
    unfold splitHyphen at hg
    cases hsp : splitHyphen rest with
    | nil => exact absurd hsp (splitHyphen_ne_nil rest)
    | cons g0 gs =>
      rw [hsp] at hg
      dsimp only at hg
      by_cases hc : c = '-'
      · rw [if_pos hc] at hg
        rcases List.mem_cons.mp hg with rfl | hg'
        · simp
        · exact ih g (hsp ▸ hg')
      · rw [if_neg hc] at hg
        rcases List.mem_cons.mp hg with rfl | hg'
        · intro hmem
          rcases List.mem_cons.mp hmem with hEq | hmem'
          · exact hc hEq.symm
          · exact ih g0 (hsp ▸ List.mem_cons_self g0 gs) hmem'
        · exact ih g (hsp ▸ List.mem_cons_of_mem g0 hg')

theorem segsOf_no_hyphen (s : String) : ∀ t ∈ segsOf s, '-' ∉ t.data := by
  intro t ht
  unfold segsOf at ht
  obtain ⟨ht1, -⟩ := List.mem_filter.mp ht
  obtain ⟨g, hg, hgt⟩ := List.mem_map.mp ht1
  intro hmem
  rw [← hgt] at hmem
  exact splitHyphen_no_hyphen s.data g hg (mem_trimChars hmem)

theorem pyIntE_ok {s : String} {n : Int} (h : pyIntE s = .ok n) :
    pyInt s = some n := by
  unfold pyIntE at h
  cases hp : pyInt s with
  | none => rw [hp] at h; cases h
  | some m => rw [hp] at h; cases h; rfl

theorem pyIntE_error {s : String} {e : ImportError}
    (h : pyIntE s = .error e) :
    e = .invalidIntLiteral s ∧ pyInt s = none := by
  unfold pyIntE at h
  cases hp : pyInt s with
  | none => rw [hp] at h; cases h; exact ⟨rfl, rfl⟩
  | some m => rw [hp] at h; cases h

theorem mapIntList_ok_mem :
    ∀ (l : List String) (ns : List Int), mapIntList l = .ok ns →
      ∀ n ∈ ns, ∃ s ∈ l, pyIntE s = .ok n := by
  intro l
  induction l with
  | nil =>
    intro ns hml n hn
    cases hml
    cases hn
  | cons a t ih =>
    intro ns hml n hn
    unfold mapIntList at hml
    cases ha : pyIntE a with
    | error e => rw [ha] at hml; cases hml
    | ok m =>
      rw [ha] at hml
      cases ht : mapIntList t with
      | error e => rw [ht] at hml; cases hml
      | ok ms =>
        rw [ht] at hml
        cases hml
        rcases List.mem_cons.mp hn with rfl | hn'
        · exact ⟨a, List.mem_cons_self a t, ha⟩
        · obtain ⟨s, hs, hse⟩ := ih ms ht n hn'
          exact ⟨s, List.mem_cons_of_mem a hs, hse⟩

theorem mapIntList_error :
    ∀ (l : List String) (e : ImportError), mapIntList l = .error e →
      ∃ s ∈ l, pyIntE s = .error e := by
  intro l
  induction l with
  | nil => intro e hml; cases hml
  | cons a t ih =>
    intro e hml
    unfold mapIntList at hml
    cases ha : pyIntE a with
    | error e1 =>
      rw [ha] at hml
      cases hml
      exact ⟨a, List.mem_cons_self a t, ha⟩
    | ok m =>
      rw [ha] at hml
      cases ht : mapIntList t with
      | error e1 =>
        rw [ht] at hml
        cases hml
        obtain ⟨s, hs, hse⟩ := ih e ht
        exact ⟨s, List.mem_cons_of_mem a hs, hse⟩
      | ok ms => rw [ht] at hml; cases hml

theorem le_foldl_max (n : Int) (ns : List Int) : n ≤ ns.foldl max n := by
  induction ns generalizing n with
  | nil => simp
  | cons x xs ih => exact le_trans (le_max_left n x) (ih (max n x))

/-- `_parse_sets` never returns a negative count: the hyphen branch drops
every sign character, and the plain branch only fires on hyphen-free
input. -/
theorem parse_sets_nonneg {s : String} {n : Int}
    (h : parse_sets s = .ok n) : 0 ≤ n := by
  unfold parse_sets at h
  by_cases hempty : pyStrip s = ""
  · rw [if_pos hempty] at h
    cases h
    decide
  · rw [if_neg hempty] at h
    by_cases hhyp : (pyStrip s).data.contains '-'
    · rw [if_pos hhyp] at h
      cases hm : mapIntList (segsOf (pyStrip s)) with
      | error e => rw [hm] at h; cases h
      | ok ns =>
        rw [hm] at h
        cases ns with
        | nil => cases h; decide
        | cons n0 ns0 =>
          cases h
          obtain ⟨t, htm, hte⟩ :=
            mapIntList_ok_mem _ _ hm n0 (List.mem_cons_self n0 ns0)
          have h0 : (0 : Int) ≤ n0 :=
            pyInt_nonneg (segsOf_no_hyphen _ t htm) (pyIntE_ok hte)
          exact le_trans h0 (le_foldl_max n0 ns0)
    · rw [if_neg hhyp] at h
      have hnm : '-' ∉ (pyStrip s).data := by
        intro hc
        exact hhyp (List.elem_eq_true_of_mem hc)
      exact pyInt_nonneg hnm (pyIntE_ok h)

theorem parse_sets_error_shape {s : String} {e : ImportError}
    (h : parse_sets s = .error e) :
    ∃ lit, e = .invalidIntLiteral lit ∧ pyInt lit = none := by
  unfold parse_sets at h
  by_cases hempty : pyStrip s = ""
  · rw [if_pos hempty] at h; cases h
  · rw [if_neg hempty] at h
    by_cases hhyp : (pyStrip s).data.contains '-'
    · rw [if_pos hhyp] at h
      cases hm : mapIntList (segsOf (pyStrip s)) with
      | error e1 =>
        rw [hm] at h
        cases h
        obtain ⟨t, -, hte⟩ := mapIntList_error _ _ hm
        obtain ⟨rfl, hnone⟩ := pyIntE_error hte
        exact ⟨t, rfl, hnone⟩
      | ok ns =>
        rw [hm] at h
        cases ns with
        | nil => cases h
        | cons n0 ns0 => cases h
    · rw [if_neg hhyp] at h
      obtain ⟨rfl, hnone⟩ := pyIntE_error h
      exact ⟨pyStrip s, rfl, hnone⟩

theorem parseRest_error_shape {s : String} {e : ImportError}
    (h : parseRest s = .error e) :
    ∃ lit, e = .invalidIntLiteral lit ∧ pyInt lit = none := by
  unfold parseRest at h
  by_cases hempty : s = ""
  · rw [if_pos hempty] at h; cases h
  · rw [if_neg hempty] at h
    obtain ⟨rfl, hnone⟩ := pyIntE_error h
    exact ⟨s, rfl, hnone⟩

theorem rowErr_shape {h r : List String} {e : ImportError}
    (he : rowErr h r = some e) :
    ∃ lit, e = .invalidIntLiteral lit ∧ pyInt lit = none := by
  unfold rowErr at he
  by_cases hname : rowName h r = ""
  · rw [if_pos hname] at he; cases he
  · rw [if_neg hname] at he
    cases hs : parse_sets (rowSets h r) with
    | error e1 =>
      rw [hs] at he
      cases he
      exact parse_sets_error_shape hs
    | ok a =>
      rw [hs] at he
      cases hb : parseRest (rowRest h r) with
      | error e1 =>
        rw [hb] at he
        cases he
        exact parseRest_error_shape hb
      | ok b => rw [hb] at he; cases he

/-! ### The import entry point -/

theorem importBody_ok_elim {db : DB} {plan : Nat} {file : CsvFile}
    {db' : DB} {res : ImportResult}
    (hb : importBody db plan file = (db', .ok res)) :
    missingColumnsOf file.header = [] ∧
    ∃ st : LoopState,
      runRows plan file.header ⟨deleteItems plan db, 0, 0, 0, 1⟩
        (file.rows.filter (fun r => r ≠ [])) = (st, none) ∧
      db' = st.db ∧
      res = ⟨st.created_exercises, st.updated_exercises, st.created_items⟩ := by
  unfold importBody at hb
  dsimp only at hb
  by_cases hm : missingColumnsOf file.header = []
  · refine ⟨hm, ?_⟩
    rw [if_neg (not_not_intro hm)] at hb
    rcases hrr : runRows plan file.header ⟨deleteItems plan db, 0, 0, 0, 1⟩
        (file.rows.filter (fun r => r ≠ [])) with ⟨st, o⟩
    rw [hrr] at hb
    cases o with
    | none =>
      dsimp only at hb
      exact ⟨st, rfl, (congrArg Prod.fst hb).symm,
        (Except.ok.inj (congrArg Prod.snd hb)).symm⟩
    | some e =>
      dsimp only at hb
      cases congrArg Prod.snd hb
  · rw [if_pos hm] at hb
    cases congrArg Prod.snd hb

theorem importBody_ok_intro {db : DB} {plan : Nat} {file : CsvFile}
    {st : LoopState} (hm : missingColumnsOf file.header = [])
    (hrr : runRows plan file.header ⟨deleteItems plan db, 0, 0, 0, 1⟩
      (file.rows.filter (fun r => r ≠ [])) = (st, none)) :
    importBody db plan file =
      (st.db, .ok ⟨st.created_exercises, st.updated_exercises,
        st.created_items⟩) := by
  unfold importBody
  dsimp only
  rw [if_neg (not_not_intro hm), hrr]

theorem import_eq_body_of_ok {db : DB} {plan : Nat} {file : CsvFile}
    {db' : DB} {res : ImportResult} :
    import_plan_items_from_csv db plan file = (db', .ok res) ↔
    importBody db plan file = (db', .ok res) := by
  unfold import_plan_items_from_csv
  rcases hb : importBody db plan file with ⟨dbb, r⟩
  cases r with
  | error e =>
    dsimp only
    constructor
    · intro hcon; cases congrArg Prod.snd hcon
    · intro hcon; cases congrArg Prod.snd hcon
  | ok v => exact Iff.rfl

theorem import_error_rollback {db : DB} {plan : Nat} {file : CsvFile}
    {e : ImportError}
    (h2 : (import_plan_items_from_csv db plan file).2 = .error e) :
    import_plan_items_from_csv db plan file = (db, .error e) := by
  unfold import_plan_items_from_csv at h2 ⊢
  rcases hb : importBody db plan file with ⟨dbb, r⟩
  rw [hb] at h2
  cases r with
  | error e1 =>
    dsimp only at h2 ⊢
    rw [Except.error.inj h2]
  | ok v => cases h2

/-! ### Items of a plan after a successful run -/

theorem itemsOf_deleteItems (plan : Nat) (db : DB) :
    itemsOf plan (deleteItems plan db) = [] := by
  have hgen : ∀ its : List PlanItemRec,
      (its.filter (fun it => it.plan ≠ plan)).filter
        (fun it => it.plan = plan) = [] := by
    intro its
    induction its with
    | nil => rfl
    | cons a t ihh =>
      by_cases ha : a.plan = plan <;> simp [List.filter_cons, ha, ihh]
  simp only [itemsOf, deleteItems]
  exact hgen db.items

theorem importBody_ok_itemsOf {db : DB} {plan : Nat} {file : CsvFile}
    {db' : DB} {res : ImportResult}
    (hb : importBody db plan file = (db', .ok res)) :
    itemsOf plan db' =
      createdItems plan file.header 1 (file.rows.filter (fun r => r ≠ [])) := by
  obtain ⟨hm, st, hrr, hdb, -⟩ := importBody_ok_elim hb
  subst hdb
  obtain ⟨hi, -, -⟩ := runRows_ok_items _ _ _ _ _ hrr
  unfold itemsOf
  rw [hi]
  dsimp only
  rw [List.filter_append]
  have h1 : ((deleteItems plan db).items.filter
      (fun it => it.plan = plan) : List PlanItemRec) = [] := by
    simpa [itemsOf] using itemsOf_deleteItems plan db
  have h2 : (createdItems plan file.header 1
        (file.rows.filter (fun r => r ≠ []))).filter
      (fun it => it.plan = plan) =
      createdItems plan file.header 1 (file.rows.filter (fun r => r ≠ [])) := by
    rw [List.filter_eq_self]
    intro a ha
    simp [createdItems_plan_mem plan file.header _ 1 a ha]
  rw [h1, h2, List.nil_append]

/-! ### Remaining helper lemmas -/

theorem findExercise_name {c : List Exercise} {n : String} {e : Exercise}
    (hf : findExercise c n = some e) : e.name = n := by
  have := List.find?_some hf
  simpa using this

theorem findExercise_append_of_found {c : List Exercise} {n : String}
    {e : Exercise} (x : Exercise) (hf : findExercise c n = some e) :
    findExercise (c ++ [x]) n = some e := by
  induction c with
  | nil => simp [findExercise] at hf
  | cons a t ih =>
    by_cases ha : a.name = n
    · simp only [findExercise, List.cons_append, List.find?_cons, ha,
        decide_True] at hf ⊢
      exact hf
    · simp only [findExercise, List.cons_append, List.find?_cons, ha,
        decide_False] at hf ⊢
      exact ih hf

theorem okD_parse_sets_nonneg (s : String) : 0 ≤ okD (parse_sets s) := by
  cases hp : parse_sets s with
  | ok n =>
    have := parse_sets_nonneg hp
    simpa [okD] using this
  | error e => simp [okD]

theorem createdItems_sets_nonneg (plan : Nat) (h : List String)
    (rows : List (List String)) :
    ∀ ord, ∀ it ∈ createdItems plan h ord rows, 0 ≤ it.prescribed_sets := by
  induction rows with
  | nil => intro ord it hmem; cases hmem
  | cons r rs ih =>
    intro ord it hmem
    by_cases hname : rowName h r = ""
    · rw [createdItems, if_pos hname] at hmem
      exact ih ord it hmem
    · rw [createdItems, if_neg hname] at hmem
      rcases List.mem_cons.mp hmem with rfl | hmem'
      · exact okD_parse_sets_nonneg _
      · exact ih (ord + 1) it hmem'

theorem processRow_preserves_name_notes {plan : Nat} {h : List String}
    {st st' : LoopState} {r : List String}
    (hok : processRow plan h st r = .ok st') (n : String) (e : Exercise)
    (hf : findExercise st.db.catalog n = some e) :
    ∃ e', findExercise st'.db.catalog n = some e' ∧
      e'.name = e.name ∧ e'.notes = e.notes := by
  rcases processRow_ok_cases hok with ⟨-, rfl⟩ | ⟨-, -, -, -, hcat⟩
  · exact ⟨e, hf, rfl, rfl⟩
  · rcases hcat with ⟨-, hcatEq, -, -⟩ | ⟨e0, -, -, hupd, hnupd⟩
    · rw [hcatEq]
      exact ⟨e, findExercise_append_of_found _ hf, rfl, rfl⟩
    · by_cases hcond : rowUrl h r ≠ "" ∧ e0.youtube_url ≠ rowUrl h r
      · rw [(hupd hcond).1, findExercise_map_update, hf]
        by_cases hen : e.name = rowName h r
        · exact ⟨_, rfl, by simp [hen], by simp [hen]⟩
        · exact ⟨_, rfl, by simp [hen], by simp [hen]⟩
      · rw [(hnupd hcond).1]
        exact ⟨e, hf, rfl, rfl⟩

theorem runRows_preserves_name_notes (plan : Nat) (h : List String)
    (rows : List (List String)) :
    ∀ (st : LoopState) (n : String) (e : Exercise),
      findExercise st.db.catalog n = some e →
      ∃ e', findExercise (runRows plan h st rows).1.db.catalog n = some e' ∧
        e'.name = e.name ∧ e'.notes = e.notes := by
  induction rows with
  | nil => intro st n e hf; exact ⟨e, hf, rfl, rfl⟩
  | cons r rs ih =>
    intro st n e hf
    unfold runRows
    cases hp : processRow plan h st r with
    | error e1 => exact ⟨e, hf, rfl, rfl⟩
    | ok st1 =>
      obtain ⟨e1, hf1, hn1, ht1⟩ := processRow_preserves_name_notes hp n e hf
      obtain ⟨e2, hf2, hn2, ht2⟩ := ih st1 n e1 hf1
      exact ⟨e2, hf2, hn2.trans hn1, ht2.trans ht1⟩

theorem importBody_preserves_name_notes (db : DB) (plan : Nat)
    (file : CsvFile) (n : String) (e : Exercise)
    (hf : findExercise db.catalog n = some e) :
    ∃ e', findExercise (importBody db plan file).1.catalog n = some e' ∧
      e'.name = e.name ∧ e'.notes = e.notes := by
  unfold importBody
  dsimp only
  by_cases hm : missingColumnsOf file.header = []
  · rw [if_neg (not_not_intro hm)]
    have base : findExercise (deleteItems plan db).catalog n = some e := hf
    have hp := runRows_preserves_name_notes plan file.header
      (file.rows.filter (fun r => r ≠ []))
      ⟨deleteItems plan db, 0, 0, 0, 1⟩ n e base
    rcases hrr : runRows plan file.header ⟨deleteItems plan db, 0, 0, 0, 1⟩
        (file.rows.filter (fun r => r ≠ [])) with ⟨st, o⟩
    rw [hrr] at hp
    cases o <;> exact hp
  · rw [if_pos hm]
    exact ⟨e, hf, rfl, rfl⟩

theorem contains_eq_false_iff (l : List String) (c : String) :
    l.contains c = false ↔ c ∉ l := by
  constructor
  · intro hfalse hmem
    have htrue : l.contains c = true := List.elem_eq_true_of_mem hmem
    rw [htrue] at hfalse
    cases hfalse
  · intro hnot
    cases hc : l.contains c with
    | false => rfl
    | true => exact absurd (List.mem_of_elem_eq_true hc) hnot

/-! ### Claims -/

/-- Shared sample header for concrete checks: the five required columns. -/
def stdHeader : List String :=
  ["Exercise", "Sets", "Reps_or_Time", "Rest_Seconds", "YouTube_URL"]

/-- C1: whenever the import raises any error, the store after the call is
exactly the store before it — the plan's item list and the exercise
catalog are unchanged, because `transaction.atomic` rolls back the
initial delete and every catalog creation/update as one unit. -/
theorem import_failure_atomic_rollback (db : DB) (plan : Nat)
    (file : CsvFile) (e : ImportError)
    (h2 : (import_plan_items_from_csv db plan file).2 = .error e) :
    import_plan_items_from_csv db plan file = (db, .error e) ∧
    itemsOf plan (import_plan_items_from_csv db plan file).1 =
      itemsOf plan db ∧
    (import_plan_items_from_csv db plan file).1.catalog = db.catalog := by
  have h := import_error_rollback h2
  rw [h]
  exact ⟨rfl, rfl, rfl⟩

/-- C1 witness: a plan with one prior item, a file whose second row has
an unparsable `Sets` value; the body deletes and re-creates items, yet
the published state is untouched. -/
theorem import_failure_atomic_rollback_witness :
    ((import_plan_items_from_csv
        ⟨[⟨"Old", "u", "note"⟩], [⟨1, "Old", 1, 3, "10", 60⟩]⟩ 1
        ⟨stdHeader, [["Squat", "3", "10", "60", ""],
                     ["Row", "abc", "", "", ""]]⟩).2 =
      .error (.invalidIntLiteral "abc")) ∧
    (import_plan_items_from_csv
        ⟨[⟨"Old", "u", "note"⟩], [⟨1, "Old", 1, 3, "10", 60⟩]⟩ 1
        ⟨stdHeader, [["Squat", "3", "10", "60", ""],
                     ["Row", "abc", "", "", ""]]⟩ =
      (⟨[⟨"Old", "u", "note"⟩], [⟨1, "Old", 1, 3, "10", 60⟩]⟩,
        .error (.invalidIntLiteral "abc")) ∧
     itemsOf 1 (import_plan_items_from_csv
        ⟨[⟨"Old", "u", "note"⟩], [⟨1, "Old", 1, 3, "10", 60⟩]⟩ 1
        ⟨stdHeader, [["Squat", "3", "10", "60", ""],
                     ["Row", "abc", "", "", ""]]⟩).1 =
      itemsOf 1 ⟨[⟨"Old", "u", "note"⟩], [⟨1, "Old", 1, 3, "10", 60⟩]⟩ ∧
     (import_plan_items_from_csv
        ⟨[⟨"Old", "u", "note"⟩], [⟨1, "Old", 1, 3, "10", 60⟩]⟩ 1
        ⟨stdHeader, [["Squat", "3", "10", "60", ""],
                     ["Row", "abc", "", "", ""]]⟩).1.catalog =
      [⟨"Old", "u", "note"⟩]) :=
  ⟨rfl, import_failure_atomic_rollback _ _ _ _ rfl⟩

/-- C3: a header missing required columns fails before the destructive
delete and before any catalog access — even the unwrapped body leaves
the store untouched — and the error names every missing column, sorted
alphabetically. -/
theorem import_missing_columns (db : DB) (plan : Nat) (file : CsvFile)
    (hne : missingColumnsOf file.header ≠ []) :
    importBody db plan file =
      (db, .error (.missingColumns (missingColumnsOf file.header))) ∧
    import_plan_items_from_csv db plan file =
      (db, .error (.missingColumns (missingColumnsOf file.header))) ∧
    List.Sorted (fun a b : String => a.data < b.data)
      (missingColumnsOf file.header) ∧
    (∀ c, c ∈ missingColumnsOf file.header ↔
      (c ∈ requiredColumns ∧ c ∉ file.header)) := by
  have hbody : importBody db plan file =
      (db, .error (.missingColumns (missingColumnsOf file.header))) := by
    unfold importBody
    dsimp only
    rw [if_pos hne]
  refine ⟨hbody, ?_, ?_, ?_⟩
  · unfold import_plan_items_from_csv
    rw [hbody]
  · have hsorted : List.Sorted (fun a b : String => a.data < b.data)
        requiredColumns := by decide
    exact List.Pairwise.filter _ hsorted
  · intro c
    simp only [missingColumnsOf, List.mem_filter, Bool.not_eq_true']
    rw [contains_eq_false_iff]

/-- C3 witness: a header lacking `Reps_or_Time` and `Rest_Seconds`. -/
theorem import_missing_columns_witness :
    missingColumnsOf ["Exercise", "Sets", "YouTube_URL"] ≠ [] ∧
    import_plan_items_from_csv ⟨[], []⟩ 1
        ⟨["Exercise", "Sets", "YouTube_URL"], [["Bench", "3", "u"]]⟩ =
      (⟨[], []⟩,
        .error (.missingColumns ["Reps_or_Time", "Rest_Seconds"])) :=
  ⟨by decide,
    (import_missing_columns ⟨[], []⟩ 1
      ⟨["Exercise", "Sets", "YouTube_URL"], [["Bench", "3", "u"]]⟩
      (by decide)).2.1⟩

/-- C9 amended: a row whose `Sets` or `Rest_Seconds` is non-empty but
unparsable aborts the loop, but the raised error is the bare
`int()`-conversion `ValueError`: it carries only the offending literal —
the same error value regardless of the loop state (hence of the row's
position), and with no field name. -/
theorem row_parse_error_payload (plan : Nat) (h : List String)
    (st : LoopState) (r : List String) (e : ImportError)
    (he : processRow plan h st r = .error e) :
    (∃ lit, e = .invalidIntLiteral lit ∧ pyInt lit = none) ∧
    (∀ st2, processRow plan h st2 r = .error e) ∧
    (∀ rs, runRows plan h st (r :: rs) = (st, some e)) := by
  have hre : rowErr h r = some e := (processRow_error_iff _ _ _ _ _).mp he
  refine ⟨rowErr_shape hre,
    fun st2 => (processRow_error_iff _ _ _ _ _).mpr hre,
    fun rs => ?_⟩
  unfold runRows
  rw [he]

/-- C9 amended witness: a bad `Sets` value on an accepted row. -/
theorem row_parse_error_payload_witness :
    processRow 1 stdHeader ⟨⟨[], []⟩, 0, 0, 0, 1⟩
        ["Curl", "abc", "", "", ""] =
      .error (.invalidIntLiteral "abc") ∧
    ((∃ lit, (ImportError.invalidIntLiteral "abc") =
        .invalidIntLiteral lit ∧ pyInt lit = none) ∧
     (∀ st2, processRow 1 stdHeader st2 ["Curl", "abc", "", "", ""] =
        .error (.invalidIntLiteral "abc")) ∧
     (∀ rs, runRows 1 stdHeader ⟨⟨[], []⟩, 0, 0, 0, 1⟩
        (["Curl", "abc", "", "", ""] :: rs) =
          (⟨⟨[], []⟩, 0, 0, 0, 1⟩, some (.invalidIntLiteral "abc")))) :=
  ⟨rfl, row_parse_error_payload 1 stdHeader ⟨⟨[], []⟩, 0, 0, 0, 1⟩
    ["Curl", "abc", "", "", ""] (.invalidIntLiteral "abc") rfl⟩

/-- C9 counterexample: the claim says the raised error carries the
offending row's one-based position and the field name. It does not: a
bad value `"abc"` in `Sets` of row 1, in `Sets` of row 3, and in
`Rest_Seconds` of row 1 all raise the *identical* error value, which
holds only the literal `"abc"`. -/
theorem row_parse_error_no_position_counterexample :
    import_plan_items_from_csv ⟨[], []⟩ 1
        ⟨stdHeader, [["A", "abc", "", "", ""]]⟩ =
      (⟨[], []⟩, .error (.invalidIntLiteral "abc")) ∧
    import_plan_items_from_csv ⟨[], []⟩ 1
        ⟨stdHeader, [["A", "1", "", "", ""], ["B", "1", "", "", ""],
                     ["C", "abc", "", "", ""]]⟩ =
      (⟨[], []⟩, .error (.invalidIntLiteral "abc")) ∧
    import_plan_items_from_csv ⟨[], []⟩ 1
        ⟨stdHeader, [["A", "1", "", "abc", ""]]⟩ =
      (⟨[], []⟩, .error (.invalidIntLiteral "abc")) :=
  ⟨rfl, rfl, rfl⟩

/-- C2 counterexample: the claim says any `Sets` content other than an
empty value, a single integer token or a hyphen-range of two or more
integer tokens is a fatal parse error. `"-"` is none of those (it is
non-empty, not an integer literal, and splits into no integer tokens at
all), yet `_parse_sets` accepts it and returns 1. -/
theorem parse_sets_rule_counterexample :
    pyStrip "-" ≠ "" ∧ pyInt "-" = none ∧ segsOf (pyStrip "-") = [] ∧
    parse_sets "-" = .ok 1 ∧ parse_sets "3-" = .ok 3 :=
  ⟨by decide, rfl, rfl, rfl, rfl⟩

/-- C2 amended: stripped-empty → 1; a hyphen-free value must parse as a
single integer and yields it; a value containing a hyphen is split on
hyphens, stripped, empty pieces dropped, every remaining piece must
parse as an integer, and the result is the maximum of the pieces — or 1
when no pieces remain (so `"1-2"` and `"2-1"` give 2, but `"-"` gives 1
and `"3-"` gives 3 instead of erroring); a failing conversion aborts
with that piece's error. -/
theorem parse_sets_set_count_rule (s : String) :
    (pyStrip s = "" → parse_sets s = .ok 1) ∧
    (pyStrip s ≠ "" → (pyStrip s).data.contains '-' = false →
      parse_sets s = pyIntE (pyStrip s)) ∧
    (pyStrip s ≠ "" → (pyStrip s).data.contains '-' = true →
      (mapIntList (segsOf (pyStrip s)) = .ok [] → parse_sets s = .ok 1) ∧
      (∀ n ns, mapIntList (segsOf (pyStrip s)) = .ok (n :: ns) →
        parse_sets s = .ok (ns.foldl max n)) ∧
      (∀ e, mapIntList (segsOf (pyStrip s)) = .error e →
        parse_sets s = .error e)) := by
  refine ⟨?_, ?_, ?_⟩
  · intro h1
    unfold parse_sets
    dsimp only
    rw [if_pos h1]
  · intro h1 h2
    unfold parse_sets
    dsimp only
    have hnc : ¬((pyStrip s).data.contains '-' = true) := by
      rw [h2]
      exact Bool.false_ne_true
    rw [if_neg h1, if_neg hnc]
  · intro h1 h2
    refine ⟨?_, ?_, ?_⟩
    · intro hml
      unfold parse_sets
      dsimp only
      rw [if_neg h1, if_pos h2, hml]
    · intro n ns hml
      unfold parse_sets
      dsimp only
      rw [if_neg h1, if_pos h2, hml]
    · intro e hml
      unfold parse_sets
      dsimp only
      rw [if_neg h1, if_pos h2, hml]

/-- C2 amended witness: `" 2-1 "` is a genuine range and yields the
maximum, 2; `"abc"` is a fatal error. -/
theorem parse_sets_set_count_rule_witness :
    parse_sets " 2-1 " = .ok 2 ∧
    parse_sets "abc" = .error (.invalidIntLiteral "abc") := by
  constructor
  · have h := ((parse_sets_set_count_rule " 2-1 ").2.2 (by decide)
      (by rfl)).2.1 2 [1] (by rfl)
    rw [h]
    rfl
  · have h := (parse_sets_set_count_rule "abc").2.1 (by decide) (by rfl)
    rw [h]
    rfl

/-- C5: the per-row upsert. Unknown name: create with the row's
(possibly empty) URL, `created_exercises` +1. Known name with a
non-empty, different URL: overwrite the stored URL, `updated_exercises`
+1. Known name with an empty or equal incoming URL: no catalog mutation
and neither counter moves — the two counters are mutually exclusive per
row. -/
theorem upsert_per_row (plan : Nat) (h : List String) (st st' : LoopState)
    (r : List String) (hok : processRow plan h st r = .ok st')
    (hname : rowName h r ≠ "") :
    (findExercise st.db.catalog (rowName h r) = none →
      st'.db.catalog = st.db.catalog ++ [⟨rowName h r, rowUrl h r, ""⟩] ∧
      st'.created_exercises = st.created_exercises + 1 ∧
      st'.updated_exercises = st.updated_exercises) ∧
    (∀ e0, findExercise st.db.catalog (rowName h r) = some e0 →
      st'.created_exercises = st.created_exercises ∧
      (rowUrl h r ≠ "" → e0.youtube_url ≠ rowUrl h r →
        findExercise st'.db.catalog (rowName h r) =
          some { e0 with youtube_url := rowUrl h r } ∧
        st'.updated_exercises = st.updated_exercises + 1) ∧
      ((rowUrl h r = "" ∨ e0.youtube_url = rowUrl h r) →
        st'.db.catalog = st.db.catalog ∧
        st'.updated_exercises = st.updated_exercises)) := by
  rcases processRow_ok_cases hok with ⟨hblank, -⟩ | ⟨-, -, -, -, hcat⟩
  · exact absurd hblank hname
  · constructor
    · intro hfind
      rcases hcat with ⟨-, hc1, hc2, hc3⟩ | ⟨e0, hfound, -, -, -⟩
      · exact ⟨hc1, hc2, hc3⟩
      · rw [hfind] at hfound; cases hfound
    · intro e0 hfound
      rcases hcat with ⟨hnone, -, -, -⟩ | ⟨e0', hfound', hcre, hupd, hnupd⟩
      · rw [hnone] at hfound; cases hfound
      · have he : e0' = e0 := by
          rw [hfound] at hfound'
          exact (Option.some.inj hfound').symm
        subst he
        have hname0 : e0'.name = rowName h r := findExercise_name hfound
        refine ⟨hcre, ?_, ?_⟩
        · intro hu1 hu2
          obtain ⟨hcatEq, hupdEq⟩ := hupd ⟨hu1, hu2⟩
          refine ⟨?_, hupdEq⟩
          rw [hcatEq, findExercise_map_update, hfound]
          simp [hname0]
        · intro hor
          refine hnupd ?_
          rcases hor with h1 | h1
          · exact fun hc => hc.1 h1
          · exact fun hc => hc.2 h1

/-- C5 witness: `"Burpee"` exists with URL `"old"`; a row with URL
`"new"` updates it and bumps only `updated_exercises`. -/
theorem upsert_per_row_witness :
    processRow 1 stdHeader
        ⟨⟨[⟨"Burpee", "old", "n"⟩], []⟩, 0, 0, 0, 1⟩
        ["Burpee", "3", "10", "60", "new"] =
      .ok ⟨⟨[⟨"Burpee", "new", "n"⟩], [⟨1, "Burpee", 1, 3, "10", 60⟩]⟩,
        0, 1, 1, 2⟩ ∧
    findExercise [⟨"Burpee", "new", "n"⟩] "Burpee" =
      some ⟨"Burpee", "new", "n"⟩ ∧
    (1 : Nat) = 0 + 1 := by
  have hok : processRow 1 stdHeader
      ⟨⟨[⟨"Burpee", "old", "n"⟩], []⟩, 0, 0, 0, 1⟩
      ["Burpee", "3", "10", "60", "new"] =
    .ok ⟨⟨[⟨"Burpee", "new", "n"⟩], [⟨1, "Burpee", 1, 3, "10", 60⟩]⟩,
      0, 1, 1, 2⟩ := rfl
  have hmain := (upsert_per_row 1 stdHeader
      ⟨⟨[⟨"Burpee", "old", "n"⟩], []⟩, 0, 0, 0, 1⟩
      ⟨⟨[⟨"Burpee", "new", "n"⟩], [⟨1, "Burpee", 1, 3, "10", 60⟩]⟩,
        0, 1, 1, 2⟩
      ["Burpee", "3", "10", "60", "new"] hok (by decide)).2
      ⟨"Burpee", "old", "n"⟩ rfl
  obtain ⟨-, hupd, -⟩ := hmain
  obtain ⟨hfind, hcount⟩ := hupd (by decide) (by decide)
  exact ⟨hok, hfind, hcount⟩

/-- C8: for an accepted row the created item's `rest_seconds` is 0 when
the trimmed `Rest_Seconds` is empty and otherwise its integer value, its
`prescribed_reps` is the trimmed `Reps_or_Time` or the literal `"10"`
when empty; a non-empty unparsable `Rest_Seconds` is a fatal error that
aborts the loop. -/
theorem rest_and_reps_defaults (plan : Nat) (h : List String)
    (st : LoopState) (r : List String) (hname : rowName h r ≠ "") :
    (∀ st', processRow plan h st r = .ok st' →
      st'.db.items = st.db.items ++ [itemOfRow plan h st.order r] ∧
      (rowRest h r = "" → (itemOfRow plan h st.order r).rest_seconds = 0) ∧
      (∀ v, pyInt (rowRest h r) = some v →
        (itemOfRow plan h st.order r).rest_seconds = v) ∧
      (itemOfRow plan h st.order r).prescribed_reps =
        (if rowReps h r = "" then "10" else rowReps h r)) ∧
    (rowRest h r ≠ "" → pyInt (rowRest h r) = none →
      (∃ e, processRow plan h st r = .error e) ∧
      (∀ rs, ((runRows plan h st (r :: rs)).2).isSome)) := by
  constructor
  · intro st' hok
    rcases processRow_ok_cases hok with ⟨hblank, -⟩ | ⟨-, hits, -, -, -⟩
    · exact absurd hblank hname
    · refine ⟨hits, ?_, ?_, rfl⟩
      · intro hre
        simp [itemOfRow, parseRest, hre, okD]
      · intro v hv
        have hre : rowRest h r ≠ "" := by
          intro hcon
          rw [hcon] at hv
          cases hv
        simp [itemOfRow, parseRest, hre, pyIntE, hv, okD]
  · intro hre hnone
    have herr : ∃ e, processRow plan h st r = .error e := by
      cases hs : parse_sets (rowSets h r) with
      | error e1 =>
        exact ⟨e1, (processRow_error_iff _ _ _ _ _).mpr
          (by unfold rowErr; rw [if_neg hname, hs])⟩
      | ok a =>
        refine ⟨.invalidIntLiteral (rowRest h r),
          (processRow_error_iff _ _ _ _ _).mpr ?_⟩
        unfold rowErr
        rw [if_neg hname, hs]
        have hb : parseRest (rowRest h r) =
            .error (.invalidIntLiteral (rowRest h r)) := by
          unfold parseRest pyIntE
          rw [if_neg hre, hnone]
        rw [hb]
    refine ⟨herr, ?_⟩
    intro rs
    obtain ⟨e, he⟩ := herr
    unfold runRows
    rw [he]
    rfl

/-- C8 witness: empty rest and reps give 0 and `"10"`; a bad
`Rest_Seconds` on an accepted row errors. -/
theorem rest_and_reps_defaults_witness :
    (itemOfRow 1 stdHeader 1 ["Bench", "3", "", "", ""]).rest_seconds = 0 ∧
    (itemOfRow 1 stdHeader 1 ["Bench", "3", "", "", ""]).prescribed_reps =
      "10" ∧
    (∃ e, processRow 1 stdHeader ⟨⟨[], []⟩, 0, 0, 0, 1⟩
        ["Curl", "3", "10", "xyz", ""] = .error e) := by
  have t1 := rest_and_reps_defaults 1 stdHeader ⟨⟨[], []⟩, 0, 0, 0, 1⟩
    ["Bench", "3", "", "", ""] (by decide)
  have t2 := rest_and_reps_defaults 1 stdHeader ⟨⟨[], []⟩, 0, 0, 0, 1⟩
    ["Curl", "3", "10", "xyz", ""] (by decide)
  obtain ⟨-, hzero, -, hreps⟩ := t1.1 _ rfl
  exact ⟨hzero rfl, by rw [hreps]; rfl, (t2.2 (by decide) rfl).1⟩

/-- C4: on a successful import the plan's items correspond, in file
order, to exactly the rows whose trimmed `Exercise` is non-blank; their
`order` values are consecutive 1, 2, 3, … and blank rows consume neither
an order slot nor a summary count. -/
theorem import_orders_sequential (db : DB) (plan : Nat) (file : CsvFile)
    (db' : DB) (res : ImportResult)
    (hok : import_plan_items_from_csv db plan file = (db', .ok res)) :
    (itemsOf plan db').map (fun it => it.order) =
      List.range' 1 (acceptedRows file.header
        (file.rows.filter (fun r => r ≠ []))).length ∧
    (itemsOf plan db').map (fun it => it.exercise) =
      (acceptedRows file.header (file.rows.filter (fun r => r ≠ []))).map
        (fun r => rowName file.header r) ∧
    res.created_items =
      (acceptedRows file.header (file.rows.filter (fun r => r ≠ []))).length := by
  have hb := import_eq_body_of_ok.mp hok
  have hio := importBody_ok_itemsOf hb
  obtain ⟨hm, st, hrr, hdb, hres⟩ := importBody_ok_elim hb
  refine ⟨?_, ?_, ?_⟩
  · rw [hio]
    exact createdItems_map_order plan file.header _ 1
  · rw [hio]
    exact createdItems_map_exercise plan file.header _ 1
  · obtain ⟨-, -, hcnt⟩ := runRows_ok_items _ _ _ _ _ hrr
    rw [hres]
    dsimp only at hcnt ⊢
    rw [hcnt]
    exact Nat.zero_add _

/-- C4 witness: the claim's own example — rows [Squat, blank, Push-up,
Plank] produce exactly three items with orders 1, 2, 3. -/
theorem import_orders_sequential_witness :
    import_plan_items_from_csv ⟨[], []⟩ 1
        ⟨stdHeader, [["Squat", "3", "10", "60", "http://a"],
                     ["", "x", "", "", ""],
                     ["Push-up", "1-2", "AMRAP", "", ""],
                     ["Plank", "", "30", "45", "http://b"]]⟩ =
      (⟨[⟨"Squat", "http://a", ""⟩, ⟨"Push-up", "", ""⟩,
          ⟨"Plank", "http://b", ""⟩],
        [⟨1, "Squat", 1, 3, "10", 60⟩, ⟨1, "Push-up", 2, 2, "AMRAP", 0⟩,
          ⟨1, "Plank", 3, 1, "30", 45⟩]⟩, .ok ⟨3, 0, 3⟩) ∧
    (itemsOf 1 ⟨[⟨"Squat", "http://a", ""⟩, ⟨"Push-up", "", ""⟩,
          ⟨"Plank", "http://b", ""⟩],
        [⟨1, "Squat", 1, 3, "10", 60⟩, ⟨1, "Push-up", 2, 2, "AMRAP", 0⟩,
          ⟨1, "Plank", 3, 1, "30", 45⟩]⟩).map (fun it => it.order) =
      [1, 2, 3] ∧
    (itemsOf 1 ⟨[⟨"Squat", "http://a", ""⟩, ⟨"Push-up", "", ""⟩,
          ⟨"Plank", "http://b", ""⟩],
        [⟨1, "Squat", 1, 3, "10", 60⟩, ⟨1, "Push-up", 2, 2, "AMRAP", 0⟩,
          ⟨1, "Plank", 3, 1, "30", 45⟩]⟩).map (fun it => it.exercise) =
      ["Squat", "Push-up", "Plank"] := by
  have h0 : import_plan_items_from_csv ⟨[], []⟩ 1
      ⟨stdHeader, [["Squat", "3", "10", "60", "http://a"],
                   ["", "x", "", "", ""],
                   ["Push-up", "1-2", "AMRAP", "", ""],
                   ["Plank", "", "30", "45", "http://b"]]⟩ =
    (⟨[⟨"Squat", "http://a", ""⟩, ⟨"Push-up", "", ""⟩,
        ⟨"Plank", "http://b", ""⟩],
      [⟨1, "Squat", 1, 3, "10", 60⟩, ⟨1, "Push-up", 2, 2, "AMRAP", 0⟩,
        ⟨1, "Plank", 3, 1, "30", 45⟩]⟩, .ok ⟨3, 0, 3⟩) := rfl
  obtain ⟨h1, h2, -⟩ := import_orders_sequential _ _ _ _ _ h0
  exact ⟨h0, by rw [h1]; rfl, by rw [h2]; rfl⟩

/-- C6 counterexample: a `Sets` value of `"0"` is accepted without any
error — `int("0")` is 0, `_parse_sets` performs no positivity check, and
0 also passes the storage layer's ≥ 0 check — and the created item has
`prescribed_sets = 0`: the claimed "positive integer (at least 1)"
fails. -/
theorem item_invariant_counterexample :
    import_plan_items_from_csv ⟨[], []⟩ 1
        ⟨stdHeader, [["Squat", "0", "10", "60", ""]]⟩ =
      (⟨[⟨"Squat", "", ""⟩], [⟨1, "Squat", 1, 0, "10", 60⟩]⟩,
        .ok ⟨1, 0, 1⟩) ∧
    ¬(1 ≤ (0 : Int)) :=
  ⟨rfl, by decide⟩

/-- C6 amended: every item a successful import materialises has
`prescribed_sets ≥ 0`, and zero is reachable (e.g. `Sets = "0"`), so of
the claimed invariant the "at least 1" bound fails while non-negativity
holds (the hyphen branch of `_parse_sets` discards sign characters). The
`rest_seconds ≥ 0` half of the invariant is enforced by the storage
layer's `PositiveSmallIntegerField` check rather than by the importer's
Python code, and is outside this Python-level embedding. -/
theorem import_items_sets_nonneg (db : DB) (plan : Nat) (file : CsvFile)
    (db' : DB) (res : ImportResult)
    (hok : import_plan_items_from_csv db plan file = (db', .ok res)) :
    ∀ it ∈ itemsOf plan db', 0 ≤ it.prescribed_sets := by
  have hb := import_eq_body_of_ok.mp hok
  rw [importBody_ok_itemsOf hb]
  exact createdItems_sets_nonneg plan file.header _ 1

/-- C6 amended witness: the `Sets = "0"` import satisfies the weakened
bound. -/
theorem import_items_sets_nonneg_witness :
    import_plan_items_from_csv ⟨[], []⟩ 1
        ⟨stdHeader, [["Squat", "0", "10", "60", ""]]⟩ =
      (⟨[⟨"Squat", "", ""⟩], [⟨1, "Squat", 1, 0, "10", 60⟩]⟩,
        .ok ⟨1, 0, 1⟩) ∧
    ∀ it ∈ itemsOf 1 (⟨[⟨"Squat", "", ""⟩],
        [⟨1, "Squat", 1, 0, "10", 60⟩]⟩ : DB), 0 ≤ it.prescribed_sets :=
  ⟨rfl, import_items_sets_nonneg ⟨[], []⟩ 1
    ⟨stdHeader, [["Squat", "0", "10", "60", ""]]⟩ _ _ rfl⟩

/-- C7: importing the same valid file twice into the same plan gives the
same final item list (the items are a function of the file alone); the
second run creates no exercises, and when no incoming URL differs from
what the catalog then stores (none changed between the runs), it updates
none either. -/
theorem import_idempotent (db : DB) (plan : Nat) (file : CsvFile)
    (db1 : DB) (r1 : ImportResult)
    (h1 : import_plan_items_from_csv db plan file = (db1, .ok r1)) :
    ∃ db2 r2, import_plan_items_from_csv db1 plan file = (db2, .ok r2) ∧
      itemsOf plan db2 = itemsOf plan db1 ∧
      r2.created_exercises = 0 ∧
      ((∀ r ∈ acceptedRows file.header (file.rows.filter (fun x => x ≠ [])),
          rowUrl file.header r = "" ∨
          (∃ e, findExercise db1.catalog (rowName file.header r) = some e ∧
            e.youtube_url = rowUrl file.header r)) →
        r2.updated_exercises = 0) := by
  have hb1 := import_eq_body_of_ok.mp h1
  obtain ⟨hm, st1, hrr1, hdb1, hres1⟩ := importBody_ok_elim hb1
  have hall : ∀ r ∈ file.rows.filter (fun r => r ≠ []),
      rowErr file.header r = none :=
    (runRows_none_iff plan file.header _
      ⟨deleteItems plan db, 0, 0, 0, 1⟩).mp (by rw [hrr1])
  rcases hrr2p : runRows plan file.header ⟨deleteItems plan db1, 0, 0, 0, 1⟩
      (file.rows.filter (fun r => r ≠ [])) with ⟨st2, o2⟩
  have ho2 : o2 = none := by
    have h := (runRows_none_iff plan file.header _
      ⟨deleteItems plan db1, 0, 0, 0, 1⟩).mpr hall
    rw [hrr2p] at h
    exact h
  subst ho2
  have hb2 := importBody_ok_intro hm hrr2p
  refine ⟨st2.db,
    ⟨st2.created_exercises, st2.updated_exercises, st2.created_items⟩,
    import_eq_body_of_ok.mpr hb2, ?_, ?_, ?_⟩
  · rw [importBody_ok_itemsOf hb2, ← importBody_ok_itemsOf hb1]
  · have hpres : ∀ r ∈ file.rows.filter (fun r => r ≠ []),
        rowName file.header r ≠ "" →
        (findExercise
          ((⟨deleteItems plan db1, 0, 0, 0, 1⟩ : LoopState)).db.catalog
          (rowName file.header r)).isSome := by
      intro r hmem hn
      have hsome := runRows_names_present plan file.header _ _ _ hrr1 r hmem hn
      rw [← hdb1] at hsome
      exact hsome
    have h := runRows_created_const plan file.header _ _ _ hpres hrr2p
    simpa using h
  · intro hurl
    have hyp : ∀ r ∈ file.rows.filter (fun r => r ≠ []),
        rowName file.header r ≠ "" →
        ∃ e0, findExercise
            ((⟨deleteItems plan db1, 0, 0, 0, 1⟩ : LoopState)).db.catalog
            (rowName file.header r) = some e0 ∧
          (rowUrl file.header r = "" ∨
            e0.youtube_url = rowUrl file.header r) := by
      intro r hmem hn
      have hmem2 : r ∈ acceptedRows file.header
          (file.rows.filter (fun x => x ≠ [])) :=
        List.mem_filter.mpr ⟨hmem, by simpa using hn⟩
      rcases hurl r hmem2 with hu | ⟨e, hfe, heq⟩
      · have hsome := runRows_names_present plan file.header _ _ _ hrr1 r hmem hn
        rw [← hdb1] at hsome
        obtain ⟨e0, he0⟩ := Option.isSome_iff_exists.mp hsome
        exact ⟨e0, he0, Or.inl hu⟩
      · exact ⟨e, hfe, Or.inr heq⟩
    obtain ⟨hu0, -⟩ := runRows_updated_const plan file.header _ _ _ hyp hrr2p
    simpa using hu0

/-- C7 witness: a one-row file imported into an empty store, then
re-imported into the resulting store. -/
theorem import_idempotent_witness :
    ∃ db2 r2, import_plan_items_from_csv
        ⟨[⟨"Squat", "u", ""⟩], [⟨1, "Squat", 1, 3, "10", 60⟩]⟩ 1
        ⟨stdHeader, [["Squat", "3", "10", "60", "u"]]⟩ = (db2, .ok r2) ∧
      itemsOf 1 db2 =
        itemsOf 1 ⟨[⟨"Squat", "u", ""⟩], [⟨1, "Squat", 1, 3, "10", 60⟩]⟩ ∧
      r2.created_exercises = 0 ∧
      ((∀ r ∈ acceptedRows stdHeader
            ([["Squat", "3", "10", "60", "u"]].filter (fun x => x ≠ [])),
          rowUrl stdHeader r = "" ∨
          (∃ e, findExercise [⟨"Squat", "u", ""⟩]
              (rowName stdHeader r) = some e ∧
            e.youtube_url = rowUrl stdHeader r)) →
        r2.updated_exercises = 0) :=
  import_idempotent ⟨[], []⟩ 1
    ⟨stdHeader, [["Squat", "3", "10", "60", "u"]]⟩
    ⟨[⟨"Squat", "u", ""⟩], [⟨1, "Squat", 1, 3, "10", 60⟩]⟩ ⟨1, 0, 1⟩ rfl

/-- C10: the importer never touches a pre-existing catalog record's
`name` or `notes` — after any import, successful or failed, the record
found under the same name still carries them unchanged (only
`youtube_url` may differ). -/
theorem import_preserves_name_notes (db : DB) (plan : Nat) (file : CsvFile)
    (n : String) (e : Exercise) (hf : findExercise db.catalog n = some e) :
    ∃ e', findExercise
        (import_plan_items_from_csv db plan file).1.catalog n = some e' ∧
      e'.name = e.name ∧ e'.notes = e.notes := by
  unfold import_plan_items_from_csv
  rcases hb : importBody db plan file with ⟨dbb, r⟩
  cases r with
  | error e1 =>
    dsimp only
    exact ⟨e, hf, rfl, rfl⟩
  | ok v =>
    dsimp only
    have h := importBody_preserves_name_notes db plan file n e hf
    rw [hb] at h
    exact h

/-- C10 witness: an import that rewrites `"Old"`'s URL leaves its name
and notes as they were. -/
theorem import_preserves_name_notes_witness :
    findExercise [⟨"Old", "u", "keep"⟩] "Old" = some ⟨"Old", "u", "keep"⟩ ∧
    ∃ e', findExercise
        (import_plan_items_from_csv ⟨[⟨"Old", "u", "keep"⟩], []⟩ 1
          ⟨stdHeader, [["Old", "3", "10", "60", "new"]]⟩).1.catalog
        "Old" = some e' ∧
      e'.name = "Old" ∧ e'.notes = "keep" :=
  ⟨rfl, import_preserves_name_notes ⟨[⟨"Old", "u", "keep"⟩], []⟩ 1
    ⟨stdHeader, [["Old", "3", "10", "60", "new"]]⟩ "Old"
    ⟨"Old", "u", "keep"⟩ rfl⟩

end Workout
